import Mathlib

/-!
Verification of the electrum protocol client session core.

The Go sources are shallowly embedded: wire bytes are `List Char`, JSON
values are the mutual inductive `Json`/`JsonList`/`JsonObj`, Go maps become
association lists, channels become numeric identities allocated from a
counter, and the 64-bit `int` request counter wraps explicitly.
-/

mutual
/-- JSON values, as produced and consumed by Go encoding/json for the
dynamic `any` payloads of the client.  Numbers are restricted to the
integers actually used by the protocol ids and parameters. -/
inductive Json where
  | null : Json
  | bool (b : Bool) : Json
  | num (n : Int) : Json
  | str (s : List Char) : Json
  | arr (items : JsonList) : Json
  | obj (fields : JsonObj) : Json

inductive JsonList where
  | nil : JsonList
  | cons (hd : Json) (tl : JsonList) : JsonList

inductive JsonObj where
  | nil : JsonObj
  | cons (key : List Char) (val : Json) (tl : JsonObj) : JsonObj
end

deriving instance DecidableEq for Json, JsonList, JsonObj

/-- The protocol message delimiter, byte 0x0A (client.go `delimiter`). -/
def delim : Char := '\n'

/-- Lowercase hexadecimal digit, as used by Go's \u00xx escapes. -/
def hexDigitChar (d : Nat) : Char :=
  if d < 10 then Char.ofNat (48 + d) else Char.ofNat (87 + d)

/-- Four lowercase hex digits of `n` (Go's \uXXXX escape payload). -/
def hex4 (n : Nat) : List Char :=
  [hexDigitChar (n / 4096 % 16), hexDigitChar (n / 256 % 16),
   hexDigitChar (n / 16 % 16), hexDigitChar (n % 16)]

/-- Go encoding/json string escaping (with the default HTML escaping):
quote, backslash, the named control escapes, other control characters,
the HTML characters and U+2028/U+2029 as \uXXXX; everything else verbatim. -/
def escapeChar (c : Char) : List Char :=
  if c = '"' then ['\\', '"']
  else if c = '\\' then ['\\', '\\']
  else if c = '\n' then ['\\', 'n']
  else if c = '\r' then ['\\', 'r']
  else if c = '\t' then ['\\', 't']
  else if c.toNat < 32 ∨ c = '<' ∨ c = '>' ∨ c = '&' ∨ c.toNat = 8232 ∨ c.toNat = 8233 then
    '\\' :: 'u' :: hex4 c.toNat
  else [c]

def escapeStr : List Char → List Char
  | [] => []
  | c :: rest => escapeChar c ++ escapeStr rest

/-- Decimal digits of `n`, least significant first, with explicit fuel so
that the definition stays structurally recursive; `n` itself is always
enough fuel since a number has at most `n` digits. -/
def natDigitsRevFuel : Nat → Nat → List Char
  | 0, _ => []
  | fuel + 1, n =>
    if n = 0 then [] else Char.ofNat (48 + n % 10) :: natDigitsRevFuel fuel (n / 10)

/-- Decimal digits of `n`, least significant first. -/
def natDigitsRev (n : Nat) : List Char := natDigitsRevFuel n n

/-- Go's decimal rendering of a natural number. -/
def serNat (n : Nat) : List Char :=
  if n = 0 then ['0'] else (natDigitsRev n).reverse

/-- Go's decimal rendering of an integer. -/
def serInt (n : Int) : List Char :=
  if n < 0 then '-' :: serNat n.natAbs else serNat n.toNat

mutual
/-- Serialization of JSON values to wire characters, following Go
encoding/json output byte for byte (no whitespace, fields in order). -/
def Json.ser : Json → List Char
  | .null => "null".data
  | .bool true => "true".data
  | .bool false => "false".data
  | .num n => serInt n
  | .str s => '"' :: (escapeStr s ++ ['"'])
  | .arr items => '[' :: (serItems items ++ [']'])
  | .obj fields => '{' :: (serFields fields ++ ['}'])

def serItems : JsonList → List Char
  | .nil => []
  | .cons hd tl => Json.ser hd ++ serTail tl

def serTail : JsonList → List Char
  | .nil => []
  | .cons hd tl => ',' :: (Json.ser hd ++ serTail tl)

def serFields : JsonObj → List Char
  | .nil => []
  | .cons k v tl => '"' :: (escapeStr k ++ ('"' :: ':' :: (Json.ser v ++ serFTail tl)))

def serFTail : JsonObj → List Char
  | .nil => []
  | .cons k v tl => ',' :: '"' :: (escapeStr k ++ ('"' :: ':' :: (Json.ser v ++ serFTail tl)))
end

/-- Is `c` an ASCII decimal digit? -/
def isDigitC (c : Char) : Bool := 48 ≤ c.toNat && c.toNat ≤ 57

/-- Numeric value of a digit character. -/
def digVal (c : Char) : Nat := c.toNat - 48

/-- Does the input start with a digit?  Used to state that a serialized
number is followed by a non-digit, so that number parsing stops there. -/
def headDigit : List Char → Bool
  | [] => false
  | c :: _ => isDigitC c

/-- Consume a run of decimal digits, accumulating their value. -/
def parseNatAux : Nat → List Char → Nat × List Char
  | acc, [] => (acc, [])
  | acc, c :: rest =>
    if isDigitC c then parseNatAux (acc * 10 + digVal c) rest else (acc, c :: rest)

/-- Value of a hexadecimal digit character, upper or lower case. -/
def hexVal (c : Char) : Option Nat :=
  if 48 ≤ c.toNat ∧ c.toNat ≤ 57 then some (c.toNat - 48)
  else if 97 ≤ c.toNat ∧ c.toNat ≤ 102 then some (c.toNat - 87)
  else if 65 ≤ c.toNat ∧ c.toNat ≤ 70 then some (c.toNat - 55)
  else none

/-- The single-character JSON escapes accepted after a backslash. -/
def unescapeChar (e : Char) : Option Char :=
  if e = '"' then some '"'
  else if e = '\\' then some '\\'
  else if e = '/' then some '/'
  else if e = 'b' then some (Char.ofNat 8)
  else if e = 'f' then some (Char.ofNat 12)
  else if e = 'n' then some '\n'
  else if e = 'r' then some '\r'
  else if e = 't' then some '\t'
  else none

/-- Parse the body of a JSON string (after the opening quote) up to and
including the closing quote, undoing the escapes. -/
def parseStringBody : List Char → Option (List Char × List Char)
  | [] => none
  | c :: rest =>
    if c = '"' then some ([], rest)
    else if c = '\\' then
      match rest with
      | [] => none
      | e :: rest2 =>
        if e = 'u' then
          match rest2 with
          | a :: b :: c2 :: d :: rest3 =>
            match hexVal a, hexVal b, hexVal c2, hexVal d with
            | some x, some y, some z, some w =>
              (parseStringBody rest3).map
                (fun p => (Char.ofNat (((x * 16 + y) * 16 + z) * 16 + w) :: p.1, p.2))
            | _, _, _, _ => none
          | _ => none
        else
          match unescapeChar e with
          | some u => (parseStringBody rest2).map (fun p => (u :: p.1, p.2))
          | none => none
    else (parseStringBody rest).map (fun p => (c :: p.1, p.2))

mutual
/-- Fuel-bounded JSON parser for the delimiter-stripped frames produced by
the serializer (Go json.Unmarshal on the wire subset the client emits:
no interior whitespace). -/
def parseVal : Nat → List Char → Option (Json × List Char)
  | 0, _ => none
  | _ + 1, [] => none
  | fuel + 1, c :: rest =>
    if c = '"' then (parseStringBody rest).map (fun p => (.str p.1, p.2))
    else if c = '[' then (parseItemsStart fuel rest).map (fun p => (.arr p.1, p.2))
    else if c = '{' then (parseFieldsStart fuel rest).map (fun p => (.obj p.1, p.2))
    else if c = 'n' then
      match rest with
      | 'u' :: 'l' :: 'l' :: r => some (.null, r)
      | _ => none
    else if c = 't' then
      match rest with
      | 'r' :: 'u' :: 'e' :: r => some (.bool true, r)
      | _ => none
    else if c = 'f' then
      match rest with
      | 'a' :: 'l' :: 's' :: 'e' :: r => some (.bool false, r)
      | _ => none
    else if c = '-' then
      match rest with
      | d :: r =>
        if isDigitC d then
          some (.num (-(Int.ofNat (parseNatAux (digVal d) r).1)), (parseNatAux (digVal d) r).2)
        else none
      | [] => none
    else if isDigitC c then
      some (.num (Int.ofNat (parseNatAux (digVal c) rest).1), (parseNatAux (digVal c) rest).2)
    else none

/-- Parse array items right after the opening bracket. -/
def parseItemsStart : Nat → List Char → Option (JsonList × List Char)
  | 0, _ => none
  | _ + 1, [] => none
  | fuel + 1, c :: rest =>
    if c = ']' then some (.nil, rest)
    else
      match parseVal fuel (c :: rest) with
      | some (v, r1) =>
        match parseItemsMore fuel r1 with
        | some (tl, r2) => some (.cons v tl, r2)
        | none => none
      | none => none

/-- Parse the rest of an array after one item: a comma and another item,
or the closing bracket. -/
def parseItemsMore : Nat → List Char → Option (JsonList × List Char)
  | 0, _ => none
  | _ + 1, [] => none
  | fuel + 1, c :: rest =>
    if c = ']' then some (.nil, rest)
    else if c = ',' then
      match parseVal fuel rest with
      | some (v, r1) =>
        match parseItemsMore fuel r1 with
        | some (tl, r2) => some (.cons v tl, r2)
        | none => none
      | none => none
    else none

/-- Parse object fields right after the opening brace. -/
def parseFieldsStart : Nat → List Char → Option (JsonObj × List Char)
  | 0, _ => none
  | _ + 1, [] => none
  | fuel + 1, c :: rest =>
    if c = '}' then some (.nil, rest)
    else if c = '"' then
      match parseStringBody rest with
      | some (k, r1) =>
        match r1 with
        | ':' :: r2 =>
          match parseVal fuel r2 with
          | some (v, r3) =>
            match parseFieldsMore fuel r3 with
            | some (tl, r4) => some (.cons k v tl, r4)
            | none => none
          | none => none
        | _ => none
      | none => none
    else none

/-- Parse the rest of an object after one field. -/
def parseFieldsMore : Nat → List Char → Option (JsonObj × List Char)
  | 0, _ => none
  | _ + 1, [] => none
  | fuel + 1, c :: rest =>
    if c = '}' then some (.nil, rest)
    else if c = ',' then
      match rest with
      | '"' :: r0 =>
        match parseStringBody r0 with
        | some (k, r1) =>
          match r1 with
          | ':' :: r2 =>
            match parseVal fuel r2 with
            | some (v, r3) =>
              match parseFieldsMore fuel r3 with
              | some (tl, r4) => some (.cons k v tl, r4)
              | none => none
            | none => none
          | _ => none
        | none => none
      | _ => none
    else none
end

theorem charToNat_ofNat (n : Nat) (h : n < 55296) : (Char.ofNat n).toNat = n := by
  have hv : n.isValidChar := Or.inl h
  simp [Char.ofNat, Char.toNat, dif_pos hv, Char.ofNatAux, UInt32.toNat, UInt32.ofNat']

theorem parseNatAux_spec (ds : List Char) (acc : Nat) (rest : List Char)
    (hds : ∀ c ∈ ds, isDigitC c = true) (hrest : headDigit rest = false) :
    parseNatAux acc (ds ++ rest) = (ds.foldl (fun a c => a * 10 + digVal c) acc, rest) := by
  induction ds generalizing acc with
  | nil =>
    cases rest with
    | nil => rfl
    | cons c rs =>
      simp only [headDigit] at hrest
      simp [parseNatAux, hrest]
  | cons d ds ih =>
    have hd : isDigitC d = true := hds d (by simp)
    simp only [List.cons_append, parseNatAux, hd, if_true, List.foldl_cons]
    exact ih _ (fun c hc => hds c (by simp [hc]))

theorem natDigitsRevFuel_digits (fuel : Nat) :
    ∀ n, n ≤ fuel → ∀ c ∈ natDigitsRevFuel fuel n, isDigitC c = true := by
  induction fuel with
  | zero => intro n _ c hc; simp [natDigitsRevFuel] at hc
  | succ fuel ih =>
    intro n hn c hc
    by_cases h0 : n = 0
    · simp [natDigitsRevFuel, h0] at hc
    · simp only [natDigitsRevFuel, h0, if_false] at hc
      rcases List.mem_cons.1 hc with h | h
      · subst h
        have hm : n % 10 < 10 := Nat.mod_lt _ (by omega)
        simp only [isDigitC]
        have := charToNat_ofNat (48 + n % 10) (by omega)
        rw [this]
        simp; omega
      · exact ih (n / 10) (by omega) c h

theorem natDigitsRevFuel_val (fuel : Nat) :
    ∀ n acc, n ≤ fuel →
      (natDigitsRevFuel fuel n).reverse.foldl (fun a c => a * 10 + digVal c) acc
        = acc * 10 ^ (natDigitsRevFuel fuel n).length + n := by
  induction fuel with
  | zero => intro n acc hn; interval_cases n; simp [natDigitsRevFuel]
  | succ fuel ih =>
    intro n acc hn
    by_cases h0 : n = 0
    · simp [natDigitsRevFuel, h0]
    · simp only [natDigitsRevFuel, h0, if_false, List.reverse_cons, List.foldl_append,
        List.foldl_cons, List.foldl_nil, List.length_cons]
      rw [ih (n / 10) acc (by omega)]
      have hdig : digVal (Char.ofNat (48 + n % 10)) = n % 10 := by
        simp only [digVal]
        rw [charToNat_ofNat (48 + n % 10) (by omega)]
        omega
      rw [hdig, pow_succ]
      have : 10 * (n / 10) + n % 10 = n := Nat.div_add_mod n 10
      ring_nf
      omega

theorem serNat_digits (n : Nat) : ∀ c ∈ serNat n, isDigitC c = true := by
  intro c hc
  by_cases h0 : n = 0
  · simp [serNat, h0] at hc; subst hc; decide
  · simp only [serNat, h0, if_false, natDigitsRev, List.mem_reverse] at hc
    exact natDigitsRevFuel_digits n n le_rfl c hc

theorem serNat_val (n : Nat) :
    (serNat n).foldl (fun a c => a * 10 + digVal c) 0 = n := by
  by_cases h0 : n = 0
  · simp [serNat, h0, digVal]
  · simp only [serNat, h0, if_false, natDigitsRev]
    rw [natDigitsRevFuel_val n n 0 le_rfl]
    simp

theorem serNat_ne_nil (n : Nat) : serNat n ≠ [] := by
  by_cases h0 : n = 0
  · simp [serNat, h0]
  · simp only [serNat, h0, if_false, natDigitsRev]
    intro h
    rw [List.reverse_eq_nil_iff] at h
    have : natDigitsRevFuel n n = Char.ofNat (48 + n % 10) :: natDigitsRevFuel (n - 1) (n / 10) := by
      cases n with
      | zero => omega
      | succ m => simp [natDigitsRevFuel, h0]
    simp [this] at h

theorem parseNatAux_serNat (n : Nat) (rest : List Char) (hrest : headDigit rest = false)
    (d : Char) (ds : List Char) (h : serNat n = d :: ds) :
    parseNatAux (digVal d) (ds ++ rest) = (n, rest) := by
  have hds : ∀ c ∈ ds, isDigitC c = true := by
    intro c hc
    exact serNat_digits n c (by rw [h]; simp [hc])
  rw [parseNatAux_spec ds (digVal d) rest hds hrest]
  have hval : ds.foldl (fun a c => a * 10 + digVal c) (digVal d) = n := by
    have h0 : (d :: ds).foldl (fun a c => a * 10 + digVal c) 0 = n := by
      rw [← h]; exact serNat_val n
    simpa using h0
  rw [hval]

theorem hexVal_hexDigitChar : ∀ k, k < 16 → hexVal (hexDigitChar k) = some k := by decide

theorem parseStringBody_spec (s rest : List Char) :
    parseStringBody (escapeStr s ++ ('"' :: rest)) = some (s, rest) := by
  induction s with
  | nil =>
    rw [parseStringBody.eq_def]; simp [escapeStr]
  | cons c cs ih =>
    show parseStringBody ((escapeChar c ++ escapeStr cs) ++ ('"' :: rest)) = _
    by_cases h1 : c = '"'
    · subst h1
      have he : escapeChar '"' = ['\\', '"'] := by decide
      rw [he]
      simp only [List.cons_append, List.nil_append, List.append_assoc]
      rw [parseStringBody.eq_def]
      simp +decide [unescapeChar, ih]
    · by_cases h2 : c = '\\'
      · subst h2
        have he : escapeChar '\\' = ['\\', '\\'] := by decide
        rw [he]
        simp only [List.cons_append, List.nil_append, List.append_assoc]
        rw [parseStringBody.eq_def]
        simp +decide [unescapeChar, ih]
      · by_cases h3 : c = '\n'
        · subst h3
          have he : escapeChar '\n' = ['\\', 'n'] := by decide
          rw [he]
          simp only [List.cons_append, List.nil_append, List.append_assoc]
          rw [parseStringBody.eq_def]
          simp +decide [unescapeChar, ih]
        · by_cases h4 : c = '\r'
          · subst h4
            have he : escapeChar '\r' = ['\\', 'r'] := by decide
            rw [he]
            simp only [List.cons_append, List.nil_append, List.append_assoc]
            rw [parseStringBody.eq_def]
            simp +decide [unescapeChar, ih]
          · by_cases h5 : c = '\t'
            · subst h5
              have he : escapeChar '\t' = ['\\', 't'] := by decide
              rw [he]
              simp only [List.cons_append, List.nil_append, List.append_assoc]
              rw [parseStringBody.eq_def]
              simp +decide [unescapeChar, ih]
            · by_cases h6 : c.toNat < 32 ∨ c = '<' ∨ c = '>' ∨ c = '&' ∨ c.toNat = 8232 ∨ c.toNat = 8233
              · have he : escapeChar c = '\\' :: 'u' :: hex4 c.toNat := by
                  rw [escapeChar, if_neg h1, if_neg h2, if_neg h3, if_neg h4, if_neg h5, if_pos h6]
                have hlt : c.toNat < 65536 := by
                  rcases h6 with h | h | h | h | h | h
                  · omega
                  · subst h; decide
                  · subst h; decide
                  · subst h; decide
                  · omega
                  · omega
                have e1 := hexVal_hexDigitChar (c.toNat / 4096 % 16) (by omega)
                have e2 := hexVal_hexDigitChar (c.toNat / 256 % 16) (by omega)
                have e3 := hexVal_hexDigitChar (c.toNat / 16 % 16) (by omega)
                have e4 := hexVal_hexDigitChar (c.toNat % 16) (by omega)
                have hval : ((c.toNat / 4096 % 16 * 16 + c.toNat / 256 % 16) * 16
                    + c.toNat / 16 % 16) * 16 + c.toNat % 16 = c.toNat := by omega
                rw [he, hex4]
                simp only [List.cons_append, List.nil_append, List.append_assoc]
                rw [parseStringBody.eq_def]
                simp +decide [e1, e2, e3, e4, hval, Char.ofNat_toNat, ih]
              · have he : escapeChar c = [c] := by
                  rw [escapeChar, if_neg h1, if_neg h2, if_neg h3, if_neg h4, if_neg h5, if_neg h6]
                rw [he]
                simp only [List.cons_append, List.nil_append, List.append_assoc]
                rw [parseStringBody.eq_def]
                simp [h1, h2, ih]

mutual
/-- Fuel needed by the parser to re-read a serialized value. -/
def sizeJ : Json → Nat
  | .null => 1
  | .bool _ => 1
  | .num _ => 1
  | .str _ => 1
  | .arr l => 1 + sizeL l
  | .obj o => 1 + sizeO o

def sizeL : JsonList → Nat
  | .nil => 1
  | .cons hd tl => 1 + max (sizeJ hd) (sizeL tl)

def sizeO : JsonObj → Nat
  | .nil => 1
  | .cons _ v tl => 1 + max (sizeJ v) (sizeO tl)
end

theorem sizeJ_pos (j : Json) : 1 ≤ sizeJ j := by
  cases j <;> simp [sizeJ]

theorem sizeL_pos (l : JsonList) : 1 ≤ sizeL l := by
  cases l <;> simp [sizeL]

theorem sizeO_pos (o : JsonObj) : 1 ≤ sizeO o := by
  cases o <;> simp [sizeO]

theorem digit_not_special (d : Char) (hd : isDigitC d = true) :
    d ≠ '"' ∧ d ≠ '[' ∧ d ≠ '{' ∧ d ≠ 'n' ∧ d ≠ 't' ∧ d ≠ 'f' ∧ d ≠ '-' := by
  simp only [isDigitC, Bool.and_eq_true, decide_eq_true_eq] at hd
  refine ⟨?_, ?_, ?_, ?_, ?_, ?_, ?_⟩ <;> (rintro rfl; revert hd; decide)

/-- Every serialized JSON value is non-empty and does not begin with a
closing bracket, so the array-items parser takes its value branch. -/
theorem ser_head_spec (j : Json) : ∃ c cs, Json.ser j = c :: cs ∧ c ≠ ']' := by
  cases j with
  | null => exact ⟨'n', _, rfl, by decide⟩
  | bool b =>
    cases b with
    | false => exact ⟨'f', _, rfl, by decide⟩
    | true => exact ⟨'t', _, rfl, by decide⟩
  | num n =>
    by_cases hn : n < 0
    · exact ⟨'-', serNat n.natAbs, by simp [Json.ser, serInt, hn], by decide⟩
    · obtain ⟨d, ds, hds⟩ := List.exists_cons_of_ne_nil (serNat_ne_nil n.toNat)
      have hdig : isDigitC d = true := serNat_digits n.toNat d (by rw [hds]; simp)
      refine ⟨d, ds, by simp [Json.ser, serInt, hn, hds], ?_⟩
      simp only [isDigitC, Bool.and_eq_true, decide_eq_true_eq] at hdig
      rintro rfl; revert hdig; decide
  | str s => exact ⟨'"', _, rfl, by decide⟩
  | arr l => exact ⟨'[', _, rfl, by decide⟩
  | obj o => exact ⟨'{', _, rfl, by decide⟩

theorem headDigit_serTail (l : JsonList) (close : Char) (rest : List Char)
    (hclose : isDigitC close = false) :
    headDigit (serTail l ++ (close :: rest)) = false := by
  cases l with
  | nil => simpa [serTail, headDigit]
  | cons hd tl => simp [serTail, headDigit]; decide

theorem headDigit_serFTail (o : JsonObj) (close : Char) (rest : List Char)
    (hclose : isDigitC close = false) :
    headDigit (serFTail o ++ (close :: rest)) = false := by
  cases o with
  | nil => simpa [serFTail, headDigit]
  | cons k v tl => simp [serFTail, headDigit]; decide

theorem parseVal_succ_cons (fuel : Nat) (c : Char) (rest : List Char) :
    parseVal (fuel + 1) (c :: rest) =
    (if c = '"' then (parseStringBody rest).map (fun p => (.str p.1, p.2))
    else if c = '[' then (parseItemsStart fuel rest).map (fun p => (.arr p.1, p.2))
    else if c = '{' then (parseFieldsStart fuel rest).map (fun p => (.obj p.1, p.2))
    else if c = 'n' then
      match rest with
      | 'u' :: 'l' :: 'l' :: r => some (.null, r)
      | _ => none
    else if c = 't' then
      match rest with
      | 'r' :: 'u' :: 'e' :: r => some (.bool true, r)
      | _ => none
    else if c = 'f' then
      match rest with
      | 'a' :: 'l' :: 's' :: 'e' :: r => some (.bool false, r)
      | _ => none
    else if c = '-' then
      match rest with
      | d :: r =>
        if isDigitC d then
          some (.num (-(Int.ofNat (parseNatAux (digVal d) r).1)), (parseNatAux (digVal d) r).2)
        else none
      | [] => none
    else if isDigitC c then
      some (.num (Int.ofNat (parseNatAux (digVal c) rest).1), (parseNatAux (digVal c) rest).2)
    else none) := rfl

theorem parseItemsStart_succ_cons (fuel : Nat) (c : Char) (rest : List Char) :
    parseItemsStart (fuel + 1) (c :: rest) =
    (if c = ']' then some (.nil, rest)
    else
      match parseVal fuel (c :: rest) with
      | some (v, r1) =>
        match parseItemsMore fuel r1 with
        | some (tl, r2) => some (.cons v tl, r2)
        | none => none
      | none => none) := rfl

theorem parseItemsMore_succ_cons (fuel : Nat) (c : Char) (rest : List Char) :
    parseItemsMore (fuel + 1) (c :: rest) =
    (if c = ']' then some (.nil, rest)
    else if c = ',' then
      match parseVal fuel rest with
      | some (v, r1) =>
        match parseItemsMore fuel r1 with
        | some (tl, r2) => some (.cons v tl, r2)
        | none => none
      | none => none
    else none) := rfl

theorem parseFieldsStart_succ_cons (fuel : Nat) (c : Char) (rest : List Char) :
    parseFieldsStart (fuel + 1) (c :: rest) =
    (if c = '}' then some (.nil, rest)
    else if c = '"' then
      match parseStringBody rest with
      | some (k, r1) =>
        match r1 with
        | ':' :: r2 =>
          match parseVal fuel r2 with
          | some (v, r3) =>
            match parseFieldsMore fuel r3 with
            | some (tl, r4) => some (.cons k v tl, r4)
            | none => none
          | none => none
        | _ => none
      | none => none
    else none) := rfl

theorem parseFieldsMore_succ_cons (fuel : Nat) (c : Char) (rest : List Char) :
    parseFieldsMore (fuel + 1) (c :: rest) =
    (if c = '}' then some (.nil, rest)
    else if c = ',' then
      match rest with
      | '"' :: r0 =>
        match parseStringBody r0 with
        | some (k, r1) =>
          match r1 with
          | ':' :: r2 =>
            match parseVal fuel r2 with
            | some (v, r3) =>
              match parseFieldsMore fuel r3 with
              | some (tl, r4) => some (.cons k v tl, r4)
              | none => none
            | none => none
          | _ => none
        | none => none
      | _ => none
    else none) := rfl
theorem parse_ser_all : ∀ fuel,
    (∀ j rest, sizeJ j ≤ fuel → headDigit rest = false →
      parseVal fuel (Json.ser j ++ rest) = some (j, rest)) ∧
    (∀ l rest, sizeL l ≤ fuel →
      parseItemsStart fuel (serItems l ++ (']' :: rest)) = some (l, rest)) ∧
    (∀ l rest, sizeL l ≤ fuel →
      parseItemsMore fuel (serTail l ++ (']' :: rest)) = some (l, rest)) ∧
    (∀ o rest, sizeO o ≤ fuel →
      parseFieldsStart fuel (serFields o ++ ('}' :: rest)) = some (o, rest)) ∧
    (∀ o rest, sizeO o ≤ fuel →
      parseFieldsMore fuel (serFTail o ++ ('}' :: rest)) = some (o, rest)) := by
  intro fuel
  induction fuel with
  | zero =>
    refine ⟨?_, ?_, ?_, ?_, ?_⟩
    · intro j rest hs _; have := sizeJ_pos j; omega
    · intro l rest hs; have := sizeL_pos l; omega
    · intro l rest hs; have := sizeL_pos l; omega
    · intro o rest hs; have := sizeO_pos o; omega
    · intro o rest hs; have := sizeO_pos o; omega
  | succ fuel ih =>
    obtain ⟨ihV, ihI0, ihIM, ihF0, ihFM⟩ := ih
    refine ⟨?_, ?_, ?_, ?_, ?_⟩
    · -- parseVal on a serialized value
      intro j rest hs hrest
      cases j with
      | null =>
        rw [show Json.ser .null ++ rest = 'n' :: ('u' :: 'l' :: 'l' :: rest) from rfl]
        rw [parseVal_succ_cons]
        simp +decide
      | bool b =>
        cases b with
        | true =>
          rw [show Json.ser (.bool true) ++ rest = 't' :: ('r' :: 'u' :: 'e' :: rest) from rfl]
          rw [parseVal_succ_cons]
          simp +decide
        | false =>
          rw [show Json.ser (.bool false) ++ rest = 'f' :: ('a' :: 'l' :: 's' :: 'e' :: rest) from rfl]
          rw [parseVal_succ_cons]
          simp +decide
      | str s =>
        rw [show Json.ser (.str s) ++ rest = '"' :: (escapeStr s ++ ('"' :: rest)) by
          simp [Json.ser]]
        rw [parseVal_succ_cons]
        simp +decide [parseStringBody_spec]
      | num n =>
        by_cases hn : n < 0
        · obtain ⟨d, ds, hds⟩ := List.exists_cons_of_ne_nil (serNat_ne_nil n.natAbs)
          have hdig : isDigitC d = true := serNat_digits n.natAbs d (by rw [hds]; simp)
          rw [show Json.ser (.num n) ++ rest = '-' :: (d :: (ds ++ rest)) by
            simp [Json.ser, serInt, hn, hds]]
          rw [parseVal_succ_cons]
          have hpn := parseNatAux_serNat n.natAbs rest hrest d ds hds
          simp +decide [hdig, hpn]
          rw [abs_of_neg hn]; ring
        · obtain ⟨d, ds, hds⟩ := List.exists_cons_of_ne_nil (serNat_ne_nil n.toNat)
          have hdig : isDigitC d = true := serNat_digits n.toNat d (by rw [hds]; simp)
          obtain ⟨ne1, ne2, ne3, ne4, ne5, ne6, ne7⟩ := digit_not_special d hdig
          rw [show Json.ser (.num n) ++ rest = d :: (ds ++ rest) by
            simp [Json.ser, serInt, hn, hds]]
          rw [parseVal_succ_cons]
          have hpn := parseNatAux_serNat n.toNat rest hrest d ds hds
          simp [ne1, ne2, ne3, ne4, ne5, ne6, ne7, hdig, hpn]
          omega
      | arr l =>
        rw [show Json.ser (.arr l) ++ rest = '[' :: (serItems l ++ (']' :: rest)) by
          simp [Json.ser]]
        rw [parseVal_succ_cons]
        have hi := ihI0 l rest (by simp [sizeJ] at hs; omega)
        simp +decide [hi]
      | obj o =>
        rw [show Json.ser (.obj o) ++ rest = '{' :: (serFields o ++ ('}' :: rest)) by
          simp [Json.ser]]
        rw [parseVal_succ_cons]
        have hi := ihF0 o rest (by simp [sizeJ] at hs; omega)
        simp +decide [hi]
    · -- parseItemsStart
      intro l rest hs
      cases l with
      | nil =>
        rw [show serItems .nil ++ (']' :: rest) = ']' :: rest from rfl]
        rw [parseItemsStart_succ_cons]
        simp
      | cons hd tl =>
        obtain ⟨c, cs, hcs, hc⟩ := ser_head_spec hd
        have hs1 : sizeJ hd ≤ fuel := by simp [sizeL] at hs; omega
        have hs2 : sizeL tl ≤ fuel := by simp [sizeL] at hs; omega
        have hv := ihV hd (serTail tl ++ (']' :: rest)) hs1
          (headDigit_serTail tl ']' rest (by decide))
        have hm := ihIM tl rest hs2
        rw [show serItems (.cons hd tl) ++ (']' :: rest)
            = Json.ser hd ++ (serTail tl ++ (']' :: rest)) by simp [serItems]]
        rw [hcs, List.cons_append, parseItemsStart_succ_cons, if_neg hc,
          ← List.cons_append, ← hcs]
        simp [hv, hm]
    · -- parseItemsMore
      intro l rest hs
      cases l with
      | nil =>
        rw [show serTail .nil ++ (']' :: rest) = ']' :: rest from rfl]
        rw [parseItemsMore_succ_cons]
        simp
      | cons hd tl =>
        have hs1 : sizeJ hd ≤ fuel := by simp [sizeL] at hs; omega
        have hs2 : sizeL tl ≤ fuel := by simp [sizeL] at hs; omega
        have hv := ihV hd (serTail tl ++ (']' :: rest)) hs1
          (headDigit_serTail tl ']' rest (by decide))
        have hm := ihIM tl rest hs2
        rw [show serTail (.cons hd tl) ++ (']' :: rest)
            = ',' :: (Json.ser hd ++ (serTail tl ++ (']' :: rest))) by simp [serTail]]
        rw [parseItemsMore_succ_cons]
        simp +decide [hv, hm]
    · -- parseFieldsStart
      intro o rest hs
      cases o with
      | nil =>
        rw [show serFields .nil ++ ('}' :: rest) = '}' :: rest from rfl]
        rw [parseFieldsStart_succ_cons]
        simp
      | cons k v tl =>
        have hs1 : sizeJ v ≤ fuel := by simp [sizeO] at hs; omega
        have hs2 : sizeO tl ≤ fuel := by simp [sizeO] at hs; omega
        have hv := ihV v (serFTail tl ++ ('}' :: rest)) hs1
          (headDigit_serFTail tl '}' rest (by decide))
        have hm := ihFM tl rest hs2
        have hk := parseStringBody_spec k (':' :: (Json.ser v ++ (serFTail tl ++ ('}' :: rest))))
        rw [show serFields (.cons k v tl) ++ ('}' :: rest)
            = '"' :: (escapeStr k ++ ('"' :: (':' :: (Json.ser v ++ (serFTail tl ++ ('}' :: rest)))))) by
          simp [serFields]]
        rw [parseFieldsStart_succ_cons]
        simp +decide [hk, hv, hm]
    · -- parseFieldsMore
      intro o rest hs
      cases o with
      | nil =>
        rw [show serFTail .nil ++ ('}' :: rest) = '}' :: rest from rfl]
        rw [parseFieldsMore_succ_cons]
        simp
      | cons k v tl =>
        have hs1 : sizeJ v ≤ fuel := by simp [sizeO] at hs; omega
        have hs2 : sizeO tl ≤ fuel := by simp [sizeO] at hs; omega
        have hv := ihV v (serFTail tl ++ ('}' :: rest)) hs1
          (headDigit_serFTail tl '}' rest (by decide))
        have hm := ihFM tl rest hs2
        have hk := parseStringBody_spec k (':' :: (Json.ser v ++ (serFTail tl ++ ('}' :: rest))))
        rw [show serFTail (.cons k v tl) ++ ('}' :: rest)
            = ',' :: ('"' :: (escapeStr k ++ ('"' :: (':' :: (Json.ser v ++ (serFTail tl ++ ('}' :: rest))))))) by
          simp [serFTail]]
        rw [parseFieldsMore_succ_cons]
        simp +decide [hk, hv, hm]


mutual
theorem sizeJ_le_len (j : Json) : sizeJ j ≤ (Json.ser j).length + 1 := by
  cases j with
  | null => simp [sizeJ, Json.ser]
  | bool b => cases b <;> simp [sizeJ, Json.ser]
  | num n => simp [sizeJ]
  | str s => simp [sizeJ, Json.ser]
  | arr l =>
    have h := sizeL_le_len l
    simp only [sizeJ, Json.ser, List.length_cons, List.length_append, List.length_singleton]
    omega
  | obj o =>
    have h := sizeO_le_len o
    simp only [sizeJ, Json.ser, List.length_cons, List.length_append, List.length_singleton]
    omega

theorem sizeL_le_len (l : JsonList) : sizeL l ≤ (serItems l).length + 2 := by
  cases l with
  | nil => simp [sizeL, serItems]
  | cons hd tl =>
    have h1 := sizeJ_le_len hd
    have hB : sizeL tl ≤ (serTail tl).length + 1 := by
      cases tl with
      | nil => simp [sizeL, serTail]
      | cons h t =>
        have h2 := sizeL_le_len (JsonList.cons h t)
        simp only [serTail, serItems, List.length_cons, List.length_append] at h2 ⊢
        omega
    simp only [sizeL, serItems, List.length_append]
    omega

theorem sizeO_le_len (o : JsonObj) : sizeO o ≤ (serFields o).length + 2 := by
  cases o with
  | nil => simp [sizeO, serFields]
  | cons k v tl =>
    have h1 := sizeJ_le_len v
    have hB : sizeO tl ≤ (serFTail tl).length + 1 := by
      cases tl with
      | nil => simp [sizeO, serFTail]
      | cons k2 v2 t =>
        have h2 := sizeO_le_len (JsonObj.cons k2 v2 t)
        simp only [serFTail, serFields, List.length_cons, List.length_append] at h2 ⊢
        omega
    simp only [sizeO, serFields, List.length_cons, List.length_append]
    omega
end

/-- Parse one JSON value from a delimiter-stripped frame; the frame length
plus one is always sufficient fuel. -/
def decodeJsonBytes (bs : List Char) : Option Json :=
  match parseVal (bs.length + 1) bs with
  | some (j, []) => some j
  | _ => none

theorem decodeJsonBytes_ser (j : Json) : decodeJsonBytes (Json.ser j) = some j := by
  have hb := sizeJ_le_len j
  have h := (parse_ser_all ((Json.ser j).length + 1)).1 j [] (by omega) (by rfl)
  rw [List.append_nil] at h
  simp only [decodeJsonBytes, h]

/-- Protocol request structure (data.go `request`): jsonrpc, id, method,
params.  `params` is a Go `[]any` slice; `none` models a nil slice, which
`encoding/json` serializes as `null` rather than as an array. -/
structure Request where
  rpc : List Char
  id : Int
  method : List Char
  params : Option JsonList
deriving DecidableEq

def kJsonrpc : List Char := "jsonrpc".data
def kId : List Char := "id".data
def kMethod : List Char := "method".data
def kParams : List Char := "params".data
def kResult : List Char := "result".data
def kError : List Char := "error".data
def ver20 : List Char := "2.0".data

/-- The JSON object `json.Marshal` produces for a request, with the
`data.go:177` default of filling an empty `jsonrpc` with "2.0"; Go
serializes struct fields in declaration order. -/
def reqToJson (r : Request) : Json :=
  .obj (.cons kJsonrpc (.str (if r.rpc = [] then ver20 else r.rpc))
    (.cons kId (.num r.id)
      (.cons kMethod (.str r.method)
        (.cons kParams (match r.params with | none => .null | some l => .arr l) .nil))))

/-- data.go `encode`: marshal the request and append the message
delimiter. -/
def Request.encode (r : Request) : List Char :=
  Json.ser (reqToJson r) ++ [delim]

/-- Client session state relevant to the claims: the request counter (a
64-bit Go int, wrapping explicitly), the pending-slot map `subs`, and a
counter from which fresh inbox-channel identities are drawn. -/
structure Subr where
  method : List Char
  params : Option JsonList
  inbox : Nat
  handlerId : Nat
  ctxId : Nat
deriving DecidableEq

structure ClientSt where
  counter : Int
  subs : List (Int × Subr)
  chanCtr : Nat
deriving DecidableEq

/-- 64-bit two's-complement wraparound of Go `int` arithmetic. -/
def wrap64 (n : Int) : Int := (n + 2 ^ 63) % 2 ^ 64 - 2 ^ 63

/-- client.go `req` lines 219-221: an absent or empty parameter slice is
replaced by an empty (non-nil) one so that it serializes as `[]`. -/
def defaultParams : Option JsonList → JsonList
  | none => .nil
  | some l => l

/-- client.go `req` (lines 213-229): build a request carrying the current
counter value as id and advance the counter. -/
def reqStep (st : ClientSt) (name : List Char) (params : Option JsonList) :
    Request × ClientSt :=
  (⟨[], st.counter, name, some (defaultParams params)⟩,
    { st with counter := wrap64 (st.counter + 1) })

/-- client.go `syncRequest` lines 410-415: encode the request — which has
already appended the delimiter — and then append the delimiter again. -/
def syncRequestWire (r : Request) : List Char :=
  r.encode ++ [delim]

/-- The keep-alive tick (client.go lines 171-173) and the subscription
registration (client.go line 388) send `encode`'s output unchanged. -/
def keepAliveWire (r : Request) : List Char := r.encode

/-- strings.Join with the "," separator. -/
def joinComma : List (List Char) → List Char
  | [] => []
  | [x] => x
  | x :: xs => x ++ (',' :: joinComma xs)

/-- client.go `encodeBatch` (lines 428-440): each request is rendered with
`encode` — whose output still carries its trailing delimiter — and the
results are joined with commas between '[' and ']'. -/
def encodeBatch (reqs : List Request) : List Char :=
  '[' :: (joinComma (reqs.map Request.encode) ++ [']'])

/-- client.go `syncBatchRequest` line 460: one more delimiter after the
batch body. -/
def syncBatchWire (reqs : List Request) : List Char :=
  encodeBatch reqs ++ [delim]

/-- Number of delimiter bytes in a frame. -/
def countDelim (bs : List Char) : Nat := bs.count delim

/-- Does the frame end with exactly one delimiter byte? -/
def endsWithSingleDelim (bs : List Char) : Bool :=
  bs.getLast? == some delim && !(bs.dropLast.getLast? == some delim)

/-- The decoded protocol response (data.go `response`): Go zero values for
absent fields; `params`, `result` are `interface` payloads, `err` is the
`*rpcError` pointer (kept as the raw JSON object — the session core never
reads inside it). -/
structure RespWire where
  rpc : List Char
  id : Int
  method : List Char
  params : Option Json
  result : Option Json
  err : Option Json
deriving DecidableEq

/-- First-match field lookup in a JSON object. -/
def jLookup : JsonObj → List Char → Option Json
  | .nil, _ => none
  | .cons k v tl, key => if k = key then some v else jLookup tl key

/-- Go json.Unmarshal into a `string` field: absent or null leaves the
zero value, a string is taken verbatim, any other shape is an error. -/
def decodeStringField (o : JsonObj) (k : List Char) : Option (List Char) :=
  match jLookup o k with
  | none => some []
  | some .null => some []
  | some (.str s) => some s
  | some _ => none

/-- Go json.Unmarshal into an `int` field: absent or null leaves 0. -/
def decodeIntField (o : JsonObj) (k : List Char) : Option Int :=
  match jLookup o k with
  | none => some 0
  | some .null => some 0
  | some (.num n) => some n
  | some _ => none

/-- Go json.Unmarshal into an `interface` field: null becomes the nil
interface, any other payload is kept. -/
def decodeAnyField (o : JsonObj) (k : List Char) : Option (Option Json) :=
  match jLookup o k with
  | none => some none
  | some .null => some none
  | some v => some (some v)

/-- Go json.Unmarshal into the `*rpcError` field: absent or null is a nil
pointer; only an object can populate the pointer. -/
def decodeErrField (o : JsonObj) (k : List Char) : Option (Option Json) :=
  match jLookup o k with
  | none => some none
  | some .null => some none
  | some (.obj e) => some (some (.obj e))
  | some _ => none

/-- Go json.Unmarshal of one wire JSON value into the `response` struct
(client.go lines 273-277). -/
def decodeResponse (j : Json) : Option RespWire :=
  match j with
  | .obj o =>
    match decodeStringField o kJsonrpc, decodeIntField o kId,
        decodeStringField o kMethod, decodeAnyField o kParams,
        decodeAnyField o kResult, decodeErrField o kError with
    | some rpc, some id, some method, some params, some result, some err =>
      some ⟨rpc, id, method, params, result, err⟩
    | _, _, _, _, _, _ => none
  | _ => none

/-- Decode a delimiter-stripped frame as a single response: parse the JSON
and unmarshal it into the response structure. -/
def decodeResponseBytes (bs : List Char) : Option RespWire :=
  match decodeJsonBytes bs with
  | some j => decodeResponse j
  | none => none

/-- Strip the frame delimiter (the transport consumes bytes up to the
delimiter and hands over the preceding bytes). -/
def stripDelim (bs : List Char) : List Char := bs.dropLast

theorem decode_encode_req (st : ClientSt) (name : List Char) (p : Option JsonList) :
    decodeResponseBytes (stripDelim (Request.encode (reqStep st name p).1))
      = some ⟨ver20, st.counter, name, some (.arr (defaultParams p)), none, none⟩ := by
  have h1 : stripDelim (Request.encode (reqStep st name p).1)
      = Json.ser (reqToJson (reqStep st name p).1) := by
    simp [stripDelim, Request.encode]
  simp only [decodeResponseBytes, h1, decodeJsonBytes_ser]
  simp +decide [reqToJson, reqStep, decodeResponse, decodeStringField, decodeIntField,
    decodeAnyField, decodeErrField, jLookup]

/-- Go map read `c.subs[id]`. -/
def lookupSub : List (Int × Subr) → Int → Option Subr
  | [], _ => none
  | (k, v) :: rest, id => if k = id then some v else lookupSub rest id

/-- Go map `delete(c.subs, id)`. -/
def eraseSub : List (Int × Subr) → Int → List (Int × Subr)
  | [], _ => []
  | (k, v) :: rest, id => if k = id then eraseSub rest id else (k, v) :: eraseSub rest id

/-- client.go `removeSubscription` (lines 313-321): if the id is present,
close its inbox channel and delete the entry; otherwise do nothing. -/
def removeSubscription (subs : List (Int × Subr)) (id : Int) : List (Int × Subr) :=
  match lookupSub subs id with
  | some _ => eraseSub subs id
  | none => subs

/-- client.go `handleResponse` (lines 289-310).  A response carrying a
method name is delivered to every subscription with that method; otherwise
it is delivered to the slot registered under its id, or dropped.  The
pending-slot map is returned unchanged together with the list of
(inbox, response) deliveries performed. -/
def handleResponse (subs : List (Int × Subr)) (resp : RespWire) :
    List (Int × Subr) × List (Nat × RespWire) :=
  if resp.method ≠ [] then
    (subs, (subs.filter (fun p => p.2.method = resp.method)).map (fun p => (p.2.inbox, resp)))
  else
    match lookupSub subs resp.id with
    | some sub => (subs, [(sub.inbox, resp)])
    | none => (subs, [])

/-- client.go `startSubscription` (lines 363-398): allocate a fresh id for
the subscription's stored method and params, register the subscription
under it, and send the registration request; if the send fails the
registration is removed again.  (The spawned handler loop is concurrency
and is not part of the state transition.)  Returns the updated state and
the new id when registration stuck. -/
def startSubscription (st : ClientSt) (sub : Subr) (sendOk : Bool) :
    ClientSt × Option Int :=
  let r := (reqStep st sub.method sub.params).1
  let st1 := (reqStep st sub.method sub.params).2
  let st2 := { st1 with subs := (r.id, sub) :: st1.subs }
  if sendOk then (st2, some r.id)
  else ({ st2 with subs := eraseSub st2.subs r.id }, none)

/-- One iteration of the resume loop (client.go lines 353-358): remove the
old registration (closing its inbox), mint a fresh inbox channel for the
same subscription record, and re-register it under a fresh id via
`startSubscription`. -/
def resumeOne (st : ClientSt) (id : Int) (sendOk : Bool) : ClientSt :=
  match lookupSub st.subs id with
  | none => st
  | some sub =>
    let st1 := { st with subs := removeSubscription st.subs id }
    let sub2 := { sub with inbox := st1.chanCtr }
    let st2 := { st1 with chanCtr := st1.chanCtr + 1 }
    (startSubscription st2 sub2 sendOk).1

/-- The Go loop `for i, req := range reqs { reqMap[req.ID] = i }`
(client.go lines 448-451). -/
def buildReqMap : List Int → Nat → List (Int × Nat)
  | [], _ => []
  | id :: rest, i => (id, i) :: buildReqMap rest (i + 1)

/-- Go map read `reqMap[resp.ID]` with the zero-value default. -/
def lookupIdx : List (Int × Nat) → Int → Nat
  | [], _ => 0
  | (k, v) :: rest, id => if k = id then v else lookupIdx rest id

/-- The response-collection loop of client.go `syncBatchRequest` (lines
470-485): each arriving response is stored at the position its id maps to,
and the channel is closed — ending the loop — once the count reaches the
batch size.  `some out` models the loop finishing with vector `out`;
`none` models the caller still blocked on the response channel after all
arrivals have been consumed. -/
def batchLoop (reqMap : List (Int × Nat)) (n : Nat) :
    List RespWire → List (Option RespWire) → Nat → Option (List (Option RespWire))
  | [], _, _ => none
  | r :: rest, acc, cnt =>
    let acc2 := acc.set (lookupIdx reqMap r.id) (some r)
    if cnt + 1 = n then some acc2
    else batchLoop reqMap n rest acc2 (cnt + 1)

/-- client.go `syncBatchRequest` response collection for a batch whose
requests carry `ids`, when the wire delivers `arrivals` in order. -/
def syncBatchCollect (ids : List Int) (arrivals : List RespWire) :
    Option (List (Option RespWire)) :=
  batchLoop (buildReqMap ids 0) ids.length arrivals
    (List.replicate ids.length none) 0

/-- Go runtime faults observable in the modelled code. -/
inductive GoPanic where
  | closeOfClosedChannel
  | interfaceConversion
deriving DecidableEq

/-- The lifecycle state touched by `Close`: the transport and the `done`
channel. -/
structure SessionLife where
  transportClosed : Bool
  doneClosed : Bool
deriving DecidableEq

/-- Go `close(ch)`: closing an already-closed channel panics. -/
def closeChan (alreadyClosed : Bool) : Except GoPanic Unit :=
  if alreadyClosed then .error .closeOfClosedChannel else .ok ()

/-- Modelled from the spec: transport `close()` (spec section 4.1)
"terminates background work, closes the socket, closes all outbound
streams"; transport.go is not under src/.  Modelled as (idempotently)
marking the transport closed. -/
def transportClose (s : SessionLife) : SessionLife :=
  { s with transportClosed := true }

/-- client.go `Close` (lines 491-494): close the transport, then
`close(c.done)` unconditionally. -/
def clientClose (s : SessionLife) : Except GoPanic SessionLife :=
  let s1 := transportClose s
  match closeChan s1.doneClosed with
  | .ok _ => .ok { s1 with doneClosed := true }
  | .error e => .error e

/-- Does `sub` occur inside `s` (Go `strings.Contains`)? -/
def startsWithChars : List Char → List Char → Bool
  | _, [] => true
  | [], _ :: _ => false
  | a :: as, b :: bs => a = b && startsWithChars as bs

def hasSub : List Char → List Char → Bool
  | [], pat => pat.isEmpty
  | s@(_ :: rest), pat => startsWithChars s pat || hasSub rest pat

def rejectedLit : List Char := "rejected".data

/-- Outcome of `BroadcastTransaction`. -/
inductive BroadcastOut where
  | rejectedTx
  | success (tx : List Char)
deriving DecidableEq

/-- client.go `BroadcastTransaction` result handling (lines 799-803): a nil
result or a result string containing "rejected" maps to ErrRejectedTx;
any other string is returned verbatim; the `error` field of the response
is never read, and a non-string non-nil result faults the interface
type-assertion. -/
def broadcastOutcome (result : Option Json) (_err : Option Json) :
    Except GoPanic BroadcastOut :=
  match result with
  | none => .ok .rejectedTx
  | some (.str s) =>
    if hasSub s rejectedLit then .ok .rejectedTx else .ok (.success s)
  | some _ => .error .interfaceConversion

set_option maxRecDepth 8000

/-- A freshly constructed client: counter 0, no subscriptions
(client.go `New`, lines 145-158). -/
def freshClient : ClientSt := ⟨0, [], 0⟩

/-- The id sequence produced by `k` successive `req` allocations. -/
def allocIds : ClientSt → Nat → List Int
  | _, 0 => []
  | st, k + 1 =>
    (reqStep st [] none).1.id :: allocIds (reqStep st [] none).2 k

/-- C1: the spec requires every sent frame to end with exactly one 0x0A.
The keep-alive and subscription paths send `encode`'s output, which does;
but `syncRequest` (client.go line 415) appends a second delimiter to the
already-delimited `encode` output, so every synchronous call goes out
with two trailing 0x0A bytes.  This evaluates the code at the spec's own
scenario-1 request. -/
theorem c1_sync_request_sends_two_delims :
    endsWithSingleDelim (keepAliveWire (reqStep freshClient ("server.banner".data) none).1) = true ∧
    endsWithSingleDelim (syncRequestWire (reqStep freshClient ("server.banner".data) none).1) = false ∧
    countDelim (syncRequestWire (reqStep freshClient ("server.banner".data) none).1) = 2 := by
  decide

/-- C8: the spec requires the batch frame to contain no delimiter bytes
inside the array.  `encodeBatch` (client.go lines 428-440) joins
`encode` outputs, each still carrying its trailing delimiter, so a batch
of two requests has two 0x0A bytes embedded inside the array besides the
final one appended by `syncBatchRequest`. -/
theorem c8_batch_embeds_delims :
    countDelim (syncBatchWire
      [(reqStep freshClient ("m".data) none).1,
       (reqStep (reqStep freshClient ("m".data) none).2 ("m".data) none).1]) = 3 ∧
    countDelim (stripDelim (syncBatchWire
      [(reqStep freshClient ("m".data) none).1,
       (reqStep (reqStep freshClient ("m".data) none).2 ("m".data) none).1])) = 2 := by
  decide

/-- Counterexample to C4: on a fresh session the first `Close` succeeds
and leaves the done channel closed; the second `Close` hits Go's
close-of-closed-channel panic (client.go line 493), so it is not a safe
no-op. -/
theorem c4_close_twice_panics :
    clientClose ⟨false, false⟩ = .ok ⟨true, true⟩ ∧
    clientClose ⟨true, true⟩ = .error .closeOfClosedChannel :=
  ⟨rfl, rfl⟩

/-- C4 (amended): calling `Close` on a session whose done channel is
already closed always panics with close-of-closed-channel; `Close` is not
idempotent. -/
theorem c4_second_close_always_panics (s : SessionLife) (h : s.doneClosed = true) :
    clientClose s = .error .closeOfClosedChannel := by
  simp [clientClose, transportClose, closeChan, h]

/-- Witness for the amended C4 at a concrete closed session. -/
theorem c4_second_close_always_panics_witness :
    clientClose ⟨true, true⟩ = .error .closeOfClosedChannel :=
  c4_second_close_always_panics ⟨true, true⟩ rfl

/-- C10: `BroadcastTransaction` never reads the response's error object —
its outcome is a function of the result alone — and maps a nil result or
a result string containing "rejected" to the RejectedTransaction
sentinel, returning any other result string unchanged. -/
theorem c10_broadcast_ignores_error (result e1 e2 : Option Json) :
    broadcastOutcome result e1 = broadcastOutcome result e2 ∧
    (result = none → broadcastOutcome result e1 = .ok .rejectedTx) ∧
    (∀ s, result = some (.str s) → hasSub s rejectedLit = true →
      broadcastOutcome result e1 = .ok .rejectedTx) ∧
    (∀ s, result = some (.str s) → hasSub s rejectedLit = false →
      broadcastOutcome result e1 = .ok (.success s)) := by
  refine ⟨rfl, ?_, ?_, ?_⟩
  · rintro rfl; rfl
  · rintro s rfl hs; simp [broadcastOutcome, hs]
  · rintro s rfl hs; simp [broadcastOutcome, hs]

/-- Witness for C10: a server error response (nil result, error object
present) yields the RejectedTransaction sentinel, and a rejected-message
result does too, regardless of the error payload. -/
theorem c10_broadcast_ignores_error_witness :
    broadcastOutcome none (some (.obj .nil)) = .ok .rejectedTx ∧
    broadcastOutcome (some (.str ("tx was rejected".data))) none = .ok .rejectedTx := by
  constructor
  · exact (c10_broadcast_ignores_error none (some (.obj .nil)) none).2.1 rfl
  · exact (c10_broadcast_ignores_error (some (.str ("tx was rejected".data))) none none).2.2.1
      ("tx was rejected".data) rfl (by decide)

theorem lookupSub_eraseSub (subs : List (Int × Subr)) (i : Int) :
    lookupSub (eraseSub subs i) i = none := by
  induction subs with
  | nil => rfl
  | cons p rest ih =>
    obtain ⟨k, v⟩ := p
    by_cases hk : k = i
    · simp [eraseSub, hk, ih]
    · simp [eraseSub, lookupSub, hk, ih]

theorem lookupSub_removeSubscription (subs : List (Int × Subr)) (i : Int) :
    lookupSub (removeSubscription subs i) i = none := by
  unfold removeSubscription
  cases h : lookupSub subs i with
  | none => simpa
  | some sub => simp [lookupSub_eraseSub]

/-- C5: once `removeSubscription i` has run, a response addressed to id
`i` (an id-routed response: empty method) is dropped: `handleResponse`
performs no delivery and leaves the pending-slot map untouched.  The same
holds for any id with no registered slot. -/
theorem c5_unregister_then_drop (subs : List (Int × Subr)) (i : Int) (resp : RespWire)
    (hm : resp.method = []) (hid : resp.id = i) :
    lookupSub (removeSubscription subs i) i = none ∧
    handleResponse (removeSubscription subs i) resp = (removeSubscription subs i, []) ∧
    (∀ subs2, lookupSub subs2 i = none → handleResponse subs2 resp = (subs2, [])) := by
  refine ⟨lookupSub_removeSubscription subs i, ?_, ?_⟩
  · simp [handleResponse, hm, hid, lookupSub_removeSubscription]
  · intro subs2 h2
    simp [handleResponse, hm, hid, h2]

/-- Witness for C5 on a concrete map holding one other registration. -/
theorem c5_unregister_then_drop_witness :
    handleResponse (removeSubscription [(2, ⟨[], none, 0, 0, 0⟩), (5, ⟨[], none, 1, 1, 1⟩)] 2)
        ⟨[], 2, [], none, none, none⟩
      = (removeSubscription [(2, ⟨[], none, 0, 0, 0⟩), (5, ⟨[], none, 1, 1, 1⟩)] 2, []) :=
  (c5_unregister_then_drop [(2, ⟨[], none, 0, 0, 0⟩), (5, ⟨[], none, 1, 1, 1⟩)] 2
    ⟨[], 2, [], none, none, none⟩ rfl rfl).2.1

theorem wrap64_id (c : Int) (h1 : -(2 ^ 63) ≤ c) (h2 : c < 2 ^ 63) : wrap64 c = c := by
  unfold wrap64
  omega

theorem allocIds_consecutive (k : Nat) :
    ∀ (c : Int) (subs : List (Int × Subr)) (ch : Nat), 0 ≤ c → c + k ≤ 2 ^ 63 →
      allocIds ⟨c, subs, ch⟩ k = (List.range k).map (fun i : Nat => c + (i : Int)) := by
  induction k with
  | zero => intro c subs ch _ _; simp [allocIds]
  | succ k ih =>
    intro c subs ch hc hk
    cases k with
    | zero =>
      simp [allocIds, reqStep, List.range_succ]
    | succ m =>
      have hw : wrap64 (c + 1) = c + 1 := by
        apply wrap64_id <;> omega
      have step : allocIds ⟨c, subs, ch⟩ (m + 1 + 1)
          = c :: allocIds ⟨wrap64 (c + 1), subs, ch⟩ (m + 1) := rfl
      rw [step, hw, ih (c + 1) subs ch (by omega) (by omega)]
      conv_rhs => rw [List.range_succ_eq_map]
      simp only [List.map_cons, List.map_map]
      rw [List.cons_eq_cons]
      refine ⟨by push_cast; omega, ?_⟩
      apply List.map_congr_left
      intro i _
      simp only [Function.comp_apply]
      push_cast
      omega

/-- C6: within one session the `req` counter hands out the ids 0, 1, 2, …
in order — `k` successive allocations (by calls, batch elements,
subscriptions, or keep-alive ticks, which all go through `req`) return
exactly `[0, …, k-1]`, strictly increasing and without collision — for
any realizable number of allocations (up to the 64-bit counter bound). -/
theorem c6_ids_strictly_increasing (k : Nat) (hk : k ≤ 2 ^ 63) :
    allocIds freshClient k = (List.range k).map (fun i : Nat => (i : Int)) ∧
    List.Pairwise (· < ·) (allocIds freshClient k) := by
  have h := allocIds_consecutive k 0 [] 0 le_rfl (by omega)
  have heq : allocIds freshClient k = (List.range k).map (fun i : Nat => (i : Int)) := by
    rw [show freshClient = ⟨0, [], 0⟩ from rfl, h]
    apply List.map_congr_left
    intro i _
    omega
  refine ⟨heq, ?_⟩
  rw [heq, List.pairwise_map]
  apply (List.pairwise_lt_range k).imp
  intro a b hab
  exact_mod_cast hab

/-- Witness for C6 at three allocations. -/
theorem c6_ids_strictly_increasing_witness :
    allocIds freshClient 3 = [0, 1, 2] ∧
    List.Pairwise (· < ·) (allocIds freshClient 3) := by
  have h := c6_ids_strictly_increasing 3 (by norm_num)
  refine ⟨?_, h.2⟩
  rw [h.1]
  decide

theorem lookupSub_mem (subs : List (Int × Subr)) (i : Int) (sub : Subr)
    (h : lookupSub subs i = some sub) : (i, sub) ∈ subs := by
  induction subs with
  | nil => simp [lookupSub] at h
  | cons p rest ih =>
    obtain ⟨k, v⟩ := p
    by_cases hk : k = i
    · subst hk
      simp [lookupSub] at h
      simp [h]
    · simp only [lookupSub, if_neg hk] at h
      simp [ih h]

/-- C7: resuming a registered subscription removes its old id from the
pending-slot map and re-registers the same subscription record — same
method, params, handler and cancellation context — under the fresh id
`st.counter`, which is strictly larger than the old id, with a
newly-minted inbox channel distinct from every pre-existing one. -/
theorem c7_resume_re_registers (st : ClientSt) (i : Int) (sub : Subr)
    (hlook : lookupSub st.subs i = some sub)
    (hkeys : ∀ p ∈ st.subs, p.1 < st.counter)
    (hinbox : ∀ p ∈ st.subs, p.2.inbox < st.chanCtr) :
    lookupSub (resumeOne st i true).subs i = none ∧
    i < st.counter ∧
    (∃ sub2, lookupSub (resumeOne st i true).subs st.counter = some sub2 ∧
      sub2.method = sub.method ∧ sub2.params = sub.params ∧
      sub2.handlerId = sub.handlerId ∧ sub2.ctxId = sub.ctxId ∧
      sub2.inbox = st.chanCtr ∧
      ∀ p ∈ st.subs, p.2.inbox ≠ sub2.inbox) := by
  have hmem := lookupSub_mem st.subs i sub hlook
  have hi : i < st.counter := hkeys (i, sub) hmem
  have hne : st.counter ≠ i := by omega
  have hres : (resumeOne st i true).subs
      = (st.counter, { sub with inbox := st.chanCtr }) :: removeSubscription st.subs i := by
    simp [resumeOne, hlook, startSubscription, reqStep]
  refine ⟨?_, hi, ?_⟩
  · rw [hres]
    simp only [lookupSub, if_neg hne]
    exact lookupSub_removeSubscription st.subs i
  · refine ⟨{ sub with inbox := st.chanCtr }, ?_, rfl, rfl, rfl, rfl, rfl, ?_⟩
    · rw [hres]
      simp [lookupSub]
    · intro p hp
      have := hinbox p hp
      simp only []
      omega

/-- Witness for C7 on a client holding one subscription under id 2. -/
theorem c7_resume_re_registers_witness :
    lookupSub (resumeOne ⟨5, [(2, ⟨['m'], none, 3, 4, 6⟩)], 7⟩ 2 true).subs 2 = none ∧
    (2 : Int) < 5 ∧
    (∃ sub2, lookupSub (resumeOne ⟨5, [(2, ⟨['m'], none, 3, 4, 6⟩)], 7⟩ 2 true).subs 5 = some sub2 ∧
      sub2.method = ['m'] ∧ sub2.params = none ∧
      sub2.handlerId = 4 ∧ sub2.ctxId = 6 ∧
      sub2.inbox = 7 ∧
      ∀ p ∈ [((2 : Int), (⟨['m'], none, 3, 4, 6⟩ : Subr))], p.2.inbox ≠ sub2.inbox) :=
  c7_resume_re_registers ⟨5, [(2, ⟨['m'], none, 3, 4, 6⟩)], 7⟩ 2 ⟨['m'], none, 3, 4, 6⟩
    (by decide) (by decide) (by decide)

/-- The update one arrival performs on the response vector
(client.go line 478). -/
def batchStep (reqMap : List (Int × Nat)) (acc : List (Option RespWire)) (r : RespWire) :
    List (Option RespWire) :=
  acc.set (lookupIdx reqMap r.id) (some r)

theorem batchLoop_eq_foldl (reqMap : List (Int × Nat)) (n : Nat) :
    ∀ (arrivals : List RespWire) (acc : List (Option RespWire)) (cnt : Nat),
      arrivals ≠ [] → cnt + arrivals.length = n →
      batchLoop reqMap n arrivals acc cnt
        = some (arrivals.foldl (batchStep reqMap) acc) := by
  intro arrivals
  induction arrivals with
  | nil => intro acc cnt h _; exact absurd rfl h
  | cons r rest ih =>
    intro acc cnt _ hlen
    cases rest with
    | nil =>
      have : cnt + 1 = n := by simpa using hlen
      simp [batchLoop, this, batchStep]
    | cons r2 rest2 =>
      have hne : cnt + 1 ≠ n := by
        simp only [List.length_cons] at hlen
        omega
      have hlen2 : (cnt + 1) + (r2 :: rest2).length = n := by
        simp only [List.length_cons] at hlen ⊢
        omega
      simp only [batchLoop, if_neg hne]
      exact ih (batchStep reqMap acc r) (cnt + 1) (by simp) hlen2

theorem batchLoop_short (reqMap : List (Int × Nat)) (n : Nat) :
    ∀ (arrivals : List RespWire) (acc : List (Option RespWire)) (cnt : Nat),
      cnt + arrivals.length < n →
      batchLoop reqMap n arrivals acc cnt = none := by
  intro arrivals
  induction arrivals with
  | nil => intro acc cnt _; rfl
  | cons r rest ih =>
    intro acc cnt hlen
    simp only [List.length_cons] at hlen
    have hne : cnt + 1 ≠ n := by omega
    simp only [batchLoop, if_neg hne]
    exact ih _ (cnt + 1) (by omega)

theorem foldl_batchStep_length (reqMap : List (Int × Nat)) :
    ∀ (arrivals : List RespWire) (acc : List (Option RespWire)),
      (arrivals.foldl (batchStep reqMap) acc).length = acc.length := by
  intro arrivals
  induction arrivals with
  | nil => intro acc; rfl
  | cons r rest ih =>
    intro acc
    simp [List.foldl_cons, ih, batchStep]

theorem foldl_batchStep_untouched (reqMap : List (Int × Nat)) :
    ∀ (arrivals : List RespWire) (acc : List (Option RespWire)) (pos : Nat),
      (∀ r ∈ arrivals, lookupIdx reqMap r.id ≠ pos) →
      (arrivals.foldl (batchStep reqMap) acc)[pos]? = acc[pos]? := by
  intro arrivals
  induction arrivals with
  | nil => intro acc pos _; rfl
  | cons r rest ih =>
    intro acc pos hall
    simp only [List.foldl_cons]
    rw [ih _ pos (fun r2 h2 => hall r2 (by simp [h2]))]
    simp only [batchStep]
    rw [List.getElem?_set_ne (hall r (by simp))]

theorem lookupIdx_buildReqMap (ids : List Int) (hnodup : ids.Nodup) :
    ∀ (j : Nat) (hj : j < ids.length) (i0 : Nat),
      lookupIdx (buildReqMap ids i0) (ids[j]) = i0 + j := by
  induction ids with
  | nil => intro j hj _; simp at hj
  | cons a rest ih =>
    intro j hj i0
    cases j with
    | zero => simp [buildReqMap, lookupIdx]
    | succ m =>
      have hm : m < rest.length := by simpa using hj
      have hmem : rest[m] ∈ rest := List.getElem_mem hm
      have hne : a ≠ rest[m] := by
        intro h
        exact (List.nodup_cons.1 hnodup).1 (h ▸ hmem)
      simp only [buildReqMap, lookupIdx, List.getElem_cons_succ]
      rw [if_neg hne]
      rw [ih (List.nodup_cons.1 hnodup).2 m hm (i0 + 1)]
      omega

/-- C2 (amended to nonempty batches): when each of the batch's distinct
ids receives exactly one wire response, in whatever order, the collection
loop finishes with a vector of length n whose entry at position `j` is
the response whose id is the j-th sent id. -/
theorem c2_batch_preserves_order (ids : List Int) (arrivals : List RespWire)
    (hnodup : ids.Nodup) (hne : ids ≠ [])
    (hperm : (arrivals.map RespWire.id).Perm ids) :
    ∃ out, syncBatchCollect ids arrivals = some out ∧
      out.length = ids.length ∧
      ∀ j (hj : j < ids.length), ∃ r, r ∈ arrivals ∧
        out[j]? = some (some r) ∧ r.id = ids[j] := by
  have harrlen : arrivals.length = ids.length := by
    have := hperm.length_eq
    simpa using this
  have harrne : arrivals ≠ [] := by
    intro h
    subst h
    simp at harrlen
    exact hne (List.eq_nil_of_length_eq_zero harrlen.symm)
  have hmapnodup : (arrivals.map RespWire.id).Nodup := hperm.nodup_iff.2 hnodup
  have hloop : syncBatchCollect ids arrivals
      = some (arrivals.foldl (batchStep (buildReqMap ids 0)) (List.replicate ids.length none)) := by
    unfold syncBatchCollect
    exact batchLoop_eq_foldl (buildReqMap ids 0) ids.length arrivals
      (List.replicate ids.length none) 0 harrne (by omega)
  refine ⟨_, hloop, ?_, ?_⟩
  · rw [foldl_batchStep_length, List.length_replicate]
  · intro j hj
    have hjmem : ids[j] ∈ ids := List.getElem_mem hj
    have hidmem : ids[j] ∈ arrivals.map RespWire.id := hperm.mem_iff.2 hjmem
    obtain ⟨r, hrmem, hrid⟩ := List.mem_map.1 hidmem
    obtain ⟨pre, post, hsplit⟩ := List.append_of_mem hrmem
    have hposr : lookupIdx (buildReqMap ids 0) r.id = j := by
      rw [hrid]
      have := lookupIdx_buildReqMap ids hnodup j hj 0
      omega
    have hpostne : ∀ r2 ∈ post, lookupIdx (buildReqMap ids 0) r2.id ≠ j := by
      intro r2 hr2 hpos2
      have hr2mem : r2 ∈ arrivals := by
        rw [hsplit]
        simp [hr2]
      have hr2id : r2.id ∈ ids := hperm.mem_iff.1 (List.mem_map_of_mem _ hr2mem)
      obtain ⟨j2, hj2, hj2eq⟩ := List.mem_iff_getElem.1 hr2id
      have hpos2eq : lookupIdx (buildReqMap ids 0) r2.id = j2 := by
        rw [← hj2eq]
        have := lookupIdx_buildReqMap ids hnodup j2 hj2 0
        omega
      have hj2j : j2 = j := by omega
      subst hj2j
      have hr2idj : r2.id = r.id := by
        rw [hrid, hj2eq]
      have hrpost : r.id ∈ post.map RespWire.id := by
        rw [← hr2idj]
        exact List.mem_map_of_mem _ hr2
      rw [hsplit] at hmapnodup
      simp only [List.map_append, List.map_cons] at hmapnodup
      have hnd2 := (List.nodup_append.1 hmapnodup).2.1
      exact (List.nodup_cons.1 hnd2).1 hrpost
    refine ⟨r, hrmem, ?_, hrid⟩
    rw [hsplit, List.foldl_append, List.foldl_cons]
    rw [foldl_batchStep_untouched (buildReqMap ids 0) post _ j hpostne]
    simp only [batchStep, hposr]
    apply List.getElem?_set_eq_of_lt
    rw [foldl_batchStep_length, List.length_replicate]
    exact hj

/-- Counterexample to C2 as stated: for a batch of zero requests the
collection loop never finishes (`none` models the caller still blocked on
the response channel), so no length-0 response vector is ever returned. -/
theorem c2_empty_batch_never_returns : syncBatchCollect ([] : List Int) [] = none := rfl

/-- Witness for the amended C2: a two-element batch with ids 0 and 1 whose
responses arrive in reverse order. -/
theorem c2_batch_preserves_order_witness :
    ∃ out, syncBatchCollect [0, 1]
        [⟨[], 1, [], none, none, none⟩, ⟨[], 0, [], none, none, none⟩] = some out ∧
      out.length = ([0, 1] : List Int).length ∧
      ∀ j (hj : j < ([0, 1] : List Int).length), ∃ r,
        r ∈ [(⟨[], 1, [], none, none, none⟩ : RespWire), ⟨[], 0, [], none, none, none⟩] ∧
        out[j]? = some (some r) ∧ r.id = ([0, 1] : List Int)[j] :=
  c2_batch_preserves_order [0, 1]
    [⟨[], 1, [], none, none, none⟩, ⟨[], 0, [], none, none, none⟩]
    (by decide) (by decide) (by decide)

/-- C3 (amended): when one of the batch's allocated ids never receives a
response, the collection loop of `syncBatchRequest` consumes every arrival
without reaching the batch size and keeps waiting on the response channel
forever; no ProtocolError and no timeout exist in the code. -/
theorem c3_missing_id_blocks_forever (ids : List Int) (arrivals : List RespWire)
    (missing : Int) (hmem : missing ∈ ids)
    (hsub : ∀ r ∈ arrivals, r.id ∈ ids)
    (hnodup : (arrivals.map RespWire.id).Nodup)
    (hmiss : missing ∉ arrivals.map RespWire.id) :
    syncBatchCollect ids arrivals = none := by
  have hsubset : (arrivals.map RespWire.id) ⊆ ids.erase missing := by
    intro x hx
    obtain ⟨r, hr, hrx⟩ := List.mem_map.1 hx
    have hxids : x ∈ ids := hrx ▸ hsub r hr
    have hxne : x ≠ missing := fun h => hmiss (h ▸ hx)
    exact (List.mem_erase_of_ne hxne).2 hxids
  have hlen : arrivals.length ≤ ids.length - 1 := by
    have h1 : (arrivals.map RespWire.id).length ≤ (ids.erase missing).length :=
      (List.subperm_of_subset hnodup hsubset).length_le
    rw [List.length_map] at h1
    rw [List.length_erase_of_mem hmem] at h1
    exact h1
  have hpos : 0 < ids.length := List.length_pos_of_mem hmem
  unfold syncBatchCollect
  apply batchLoop_short
  omega

/-- Counterexample to C3 as stated: a single-request batch whose id never
gets a response leaves the collection loop blocked (`none`); it does not
return a ProtocolError, and nothing in `syncBatchRequest` bounds the wait. -/
theorem c3_missing_id_not_protocol_error : syncBatchCollect [0] [] = none := rfl

/-- Witness for the amended C3: a batch with ids 0 and 1 whose id-1
response never arrives. -/
theorem c3_missing_id_blocks_forever_witness :
    syncBatchCollect [0, 1] [⟨[], 0, [], none, none, none⟩] = none :=
  c3_missing_id_blocks_forever [0, 1] [⟨[], 0, [], none, none, none⟩] 1
    (by decide) (by decide) (by decide) (by decide)

/-- C9: encoding any request built by `req` and decoding the resulting
frame (delimiter stripped) as a response yields the original logical
fields — the same id, the same method string, and params JSON-equal to
the encoded parameter array. -/
theorem c9_encode_decode_roundtrip (st : ClientSt) (name : List Char) (p : Option JsonList) :
    ∃ w : RespWire,
      decodeResponseBytes (stripDelim (Request.encode (reqStep st name p).1)) = some w ∧
      w.id = (reqStep st name p).1.id ∧
      w.method = (reqStep st name p).1.method ∧
      ∃ l, (reqStep st name p).1.params = some l ∧ w.params = some (.arr l) :=
  ⟨⟨ver20, st.counter, name, some (.arr (defaultParams p)), none, none⟩,
    decode_encode_req st name p, rfl, rfl, ⟨defaultParams p, rfl, rfl⟩⟩
